import Mathlib

/-!
Verification of the NFHEZU static-site maintenance scripts.

The repository consists of an SEO auditor (src/audit.py) and a site builder
(src/build.py).  Python strings are embedded as lists of characters (code
points), so Python slicing and startswith/endswith translate to list
operations.  Mutable auditor state (the inbound-link map, the external-link
set, the issue log and the score) is threaded explicitly through folds.
-/

set_option maxHeartbeats 1000000

namespace NFHEZU

/-- Characters of a Python string; the embedding works over code points. -/
abbrev Chars := List Char

/-- Convert a Lean string literal to the character-list representation. -/
def cs (s : String) : Chars := s.data

/-! ## build.py: clean_link (lines 35-71) -/

/-- The tuple in clean_link: url.startswith((http:, https:, #, data:, mailto:, tel:)). -/
def schemeSkips : List Chars :=
  [cs "http:", cs "https:", cs "#", cs "data:", cs "mailto:", cs "tel:"]

/-- Extensions preserved by clean_link (preserve_exts in the source). -/
def preserveExts : List Chars :=
  [cs ".ico", cs ".svg", cs ".png", cs ".jpg", cs ".jpeg", cs ".gif", cs ".webp",
   cs ".css", cs ".js", cs ".xml", cs ".txt", cs ".json"]

/-- Python startswith on a tuple: true when any listed item is a prefix. -/
def startsWithAny (u : Chars) (ps : List Chars) : Bool :=
  ps.any (fun p => p.isPrefixOf u)

/-- The hash/query split of clean_link: at the first hash mark when one is
    present, else at the first question mark; the first component is main_url
    and the second the retained suffix (which keeps its leading marker, as the
    source re-prepends it). -/
def splitMain (u : Chars) : Chars × Chars :=
  if '#' ∈ u then (u.takeWhile (fun c => c != '#'), u.dropWhile (fun c => c != '#'))
  else if '?' ∈ u then (u.takeWhile (fun c => c != '?'), u.dropWhile (fun c => c != '?'))
  else (u, [])

/-- The preserved-extension test of clean_link: main_url lowercased ends with
    one of the preserved extensions.  Python str.lower is modelled by mapping
    Char.toLower over the characters (ASCII case folding, which covers every
    extension in the list). -/
def extPreserved (m : Chars) : Bool :=
  preserveExts.any (fun e => e.isSuffixOf (m.map Char.toLower))

/-- Models the re.sub call of clean_link: the pattern removes one final .html
    or .htm, case-insensitively; the end anchor of the pattern also matches
    just before a single trailing newline, which is modelled by peeling one
    trailing newline off before testing the suffix. -/
def stripHtmlSfx (m : Chars) : Chars :=
  let hasNl : Bool := ['\n'].isSuffixOf m
  let core := if hasNl then m.take (m.length - 1) else m
  let nl : Chars := if hasNl then ['\n'] else []
  let lc := core.map Char.toLower
  if (cs ".html").isSuffixOf lc then core.take (core.length - 5) ++ nl
  else if (cs ".htm").isSuffixOf lc then core.take (core.length - 4) ++ nl
  else m

/-- build.py clean_link. -/
def cleanLink (url : Chars) : Chars :=
  if url = [] then url
  else if startsWithAny url schemeSkips then url
  else
    let ms := splitMain url
    if extPreserved ms.1 then url
    else stripHtmlSfx ms.1 ++ ms.2

theorem splitMain_append (u : Chars) : (splitMain u).1 ++ (splitMain u).2 = u := by
  unfold splitMain
  by_cases h1 : '#' ∈ u
  · simp [h1, List.takeWhile_append_dropWhile]
  · by_cases h2 : '?' ∈ u
    · simp [h1, h2, List.takeWhile_append_dropWhile]
    · simp [h1, h2]

/-- Any value whose main part the html-suffix strip leaves unchanged is a
    fixed point of cleanLink. -/
theorem cleanLink_fixed (v : Chars)
    (h : stripHtmlSfx (splitMain v).1 = (splitMain v).1) : cleanLink v = v := by
  unfold cleanLink
  by_cases h0 : v = []
  · simp [h0]
  · by_cases hs : startsWithAny v schemeSkips = true
    · simp [h0, hs]
    · by_cases he : extPreserved (splitMain v).1 = true
      · simp [h0, hs, he]
      · simp [h0, hs, he, h, splitMain_append]

/-- Claim C4, counterexample: clean_link is not idempotent.  On the input
    a.html.html the regex strips only the final .html, so one application
    yields a.html and a second application strips again, yielding a. -/
theorem c4_clean_link_not_idempotent :
    cleanLink (cleanLink (cs "a.html.html")) ≠ cleanLink (cs "a.html.html") := by
  decide

/-- Claim C4, amended: clean_link is idempotent on every URL whose once-cleaned
    path part no longer ends in .html or .htm; equivalently, a second
    application changes nothing unless the first application left a path part
    that the html-suffix strip would still shorten (stacked suffixes such as
    a.html.html). -/
theorem c4_clean_link_idempotent_amended (u : Chars)
    (h : stripHtmlSfx (splitMain (cleanLink u)).1 = (splitMain (cleanLink u)).1) :
    cleanLink (cleanLink u) = cleanLink u :=
  cleanLink_fixed (cleanLink u) h

theorem c4_clean_link_idempotent_amended_witness :
    stripHtmlSfx (splitMain (cleanLink (cs "/about/page.html#top"))).1
        = (splitMain (cleanLink (cs "/about/page.html#top"))).1
      ∧ cleanLink (cleanLink (cs "/about/page.html#top"))
        = cleanLink (cs "/about/page.html#top") :=
  ⟨by decide, c4_clean_link_idempotent_amended (cs "/about/page.html#top") (by decide)⟩

/-- Claim C5: clean_link returns its input unchanged whenever the input path
    part (before any fragment or query) ends in a preserved asset extension,
    or the input starts with http:, https:, a hash mark, mailto:, tel: or
    data:. -/
theorem c5_clean_link_preserved_inputs (u : Chars)
    (h : startsWithAny u schemeSkips = true ∨ extPreserved (splitMain u).1 = true) :
    cleanLink u = u := by
  unfold cleanLink
  by_cases h0 : u = []
  · simp [h0]
  · rcases h with h | h
    · simp [h0, h]
    · by_cases hs : startsWithAny u schemeSkips = true
      · simp [h0, hs]
      · simp [h0, hs, h]

theorem c5_clean_link_preserved_inputs_witness :
    (startsWithAny (cs "/img/logo.png?v=2") schemeSkips = true
        ∨ extPreserved (splitMain (cs "/img/logo.png?v=2")).1 = true)
      ∧ cleanLink (cs "/img/logo.png?v=2") = cs "/img/logo.png?v=2" :=
  ⟨Or.inr (by decide), c5_clean_link_preserved_inputs _ (Or.inr (by decide))⟩

/-! ## audit.py: path helpers

Posix path primitives used by the auditor.  They model os.path.join (for
components without redundant separators), os.path.dirname, str.lstrip and
os.path.relpath for files that live under the audit root, which is the only
way the auditor produces its inputs (os.walk of the root). -/

/-- os.path.join of two components on posix: an absolute second component
    replaces the first, otherwise the parts are glued with a separating
    slash unless one is already present. -/
def pathJoin (a b : Chars) : Chars :=
  if (cs "/").isPrefixOf b then b
  else if a = [] then b
  else if (cs "/").isSuffixOf a then a ++ b
  else a ++ cs "/" ++ b

/-- os.path.dirname on posix: everything before the last slash, with
    trailing slashes of the head stripped unless the head is all slashes. -/
def dirname (p : Chars) : Chars :=
  if '/' ∈ p then
    let headRev := p.reverse.dropWhile (fun c => c != '/')
    if headRev.all (fun c => c == '/') then headRev.reverse
    else (headRev.dropWhile (fun c => c == '/')).reverse
  else []

/-- Python lstrip of slashes. -/
def lstripSlash (s : Chars) : Chars := s.dropWhile (fun c => c == '/')

/-- os.path.relpath against the audit root, for paths under the root. -/
def relPath (root p : Chars) : Chars :=
  if (root ++ cs "/").isPrefixOf p then p.drop (root.length + 1) else p

/-- os.path.basename on posix: everything after the last slash. -/
def basename (p : Chars) : Chars := (p.reverse.takeWhile (fun c => c != '/')).reverse

/-! ## audit.py: SiteAuditor.resolve_local_path (lines 102-147) -/

/-- The auditor configuration detected by auto_configure: the absolute root
    directory and the optional canonical base URL. -/
structure AuditCfg where
  rootDir : Chars
  baseUrl : Option Chars

/-- The local filesystem, as the predicate os.path.isfile. -/
structure FS where
  isFile : Chars → Bool

/-- The preprocessing of resolve_local_path: strip fragment and query, reject
    an empty result, map the canonical base URL back to a root-relative path,
    reject hrefs that remain absolute URLs, and pick the search directory
    (the root for root-relative hrefs, the directory of the current file
    otherwise) together with the candidate path fragment. -/
def normalizeHref (cfg : AuditCfg) (currentFilePath linkHref : Chars) :
    Option (Chars × Chars) :=
  let h1 := (linkHref.takeWhile (fun c => c != '#')).takeWhile (fun c => c != '?')
  if h1 = [] then none
  else
    let h2 := match cfg.baseUrl with
      | some b =>
          if b.isPrefixOf h1 then
            let r := h1.drop b.length
            if (cs "/").isPrefixOf r then r else cs "/" ++ r
          else h1
      | none => h1
    if (cs "http://").isPrefixOf h2 || (cs "https://").isPrefixOf h2 then none
    else if (cs "/").isPrefixOf h2 then some (cfg.rootDir, lstripSlash h2)
    else some (dirname currentFilePath, h2)

/-- audit.py SiteAuditor.resolve_local_path: try the exact file, then the
    path as a directory holding index.html, then the path with .html
    appended; return the first existing candidate, else None. -/
def resolveLocalPath (cfg : AuditCfg) (fs : FS) (currentFilePath linkHref : Chars) :
    Option Chars :=
  match normalizeHref cfg currentFilePath linkHref with
  | none => none
  | some (baseDir, potential) =>
      let t1 := pathJoin baseDir potential
      if fs.isFile t1 then some t1
      else
        let t2 := pathJoin (pathJoin baseDir potential) (cs "index.html")
        if fs.isFile t2 then some t2
        else
          let t3 := pathJoin baseDir (potential ++ cs ".html")
          if fs.isFile t3 then some t3 else none

/-- The ordered candidate list named by the spec: exact match, then
    directory index, then explicit .html extension. -/
def resolveCandidates (baseDir potential : Chars) : List Chars :=
  [pathJoin baseDir potential,
   pathJoin (pathJoin baseDir potential) (cs "index.html"),
   pathJoin baseDir (potential ++ cs ".html")]

/-- Modelled from the words of the spec: the resolver returns the first
    candidate of the ordered fallback list that is an existing file, and
    unresolved when none exists. -/
def resolveLocalPathSpec (cfg : AuditCfg) (fs : FS) (currentFilePath linkHref : Chars) :
    Option Chars :=
  match normalizeHref cfg currentFilePath linkHref with
  | none => none
  | some (baseDir, potential) =>
      (resolveCandidates baseDir potential).find? fs.isFile

/-- Concrete site used for the end-to-end resolver example: the root holds
    index.html and about.html only. -/
def exampleCfg : AuditCfg :=
  { rootDir := cs "/site", baseUrl := some (cs "https://example.com") }

def exampleFS : FS :=
  { isFile := fun p => [cs "/site/index.html", cs "/site/about.html"].contains p }

/-- Claim C1: the resolver strips fragment and query, maps the canonical base
    URL back to a root-relative path, and returns the first existing file
    among the ordered candidates (exact, slash index.html, dot html), or None
    when none exists; in particular a page linking to /about where only
    about.html exists resolves through the third fallback. -/
theorem c1_resolver_ordered_fallback :
    (∀ (cfg : AuditCfg) (fs : FS) (cur href : Chars),
        resolveLocalPath cfg fs cur href = resolveLocalPathSpec cfg fs cur href)
      ∧ resolveLocalPath exampleCfg exampleFS (cs "/site/index.html") (cs "/about")
          = some (cs "/site/about.html") := by
  constructor
  · intro cfg fs cur href
    unfold resolveLocalPath resolveLocalPathSpec resolveCandidates
    cases normalizeHref cfg cur href with
    | none => rfl
    | some bp =>
        obtain ⟨baseDir, potential⟩ := bp
        simp only [List.find?]
        by_cases h1 : fs.isFile (pathJoin baseDir potential) = true
        · simp [h1]
        · by_cases h2 :
              fs.isFile (pathJoin (pathJoin baseDir potential) (cs "index.html")) = true
          · simp [h1, h2]
          · by_cases h3 :
                fs.isFile (pathJoin baseDir (potential ++ cs ".html")) = true
            · simp [h1, h2, h3]
            · simp [h1, h2, h3]
  · decide

/-! ## audit.py: auditor state and add_issue (lines 15-48) -/

/-- The issues add_issue can record, indexed by the call sites in audit.py.
    Page-related issues carry the relative path interpolated into the logged
    message; link issues additionally carry the offending href, and broken
    external link issues carry the URL and the reported status (None standing
    for a connection error). -/
inductive Issue where
  | missingH1 (page : Chars)
  | multipleH1 (page : Chars)
  | missingSchema (page : Chars)
  | missingBreadcrumb (page : Chars)
  | absoluteInternal (page href : Chars)
  | relativePathUsed (page href : Chars)
  | htmlSuffixUsed (page href : Chars)
  | deadLink (page href : Chars)
  | brokenExternal (url : Chars) (status : Option Nat)
  | orphanPage (page : Chars)
  deriving DecidableEq

/-- The deduction each call site passes to add_issue. -/
def Issue.deduction : Issue → Nat
  | missingH1 _ => 5
  | multipleH1 _ => 0
  | missingSchema _ => 2
  | missingBreadcrumb _ => 0
  | absoluteInternal _ _ => 2
  | relativePathUsed _ _ => 2
  | htmlSuffixUsed _ _ => 2
  | deadLink _ _ => 10
  | brokenExternal _ _ => 5
  | orphanPage _ => 5

/-- The mutable auditor state: the defaultdict internal_links_map as an
    insertion-ordered association list, the external_links set as an
    insertion-ordered duplicate-free list, the issue log, and the score. -/
structure AuditState where
  map : List (Chars × Nat)
  externals : List Chars
  issues : List Issue
  score : Int

/-- The auditor state right after construction. -/
def initState : AuditState := { map := [], externals := [], issues := [], score := 100 }

/-- audit.py SiteAuditor.add_issue: append the issue and floor the deducted
    score at zero. -/
def addIssue (st : AuditState) (i : Issue) : AuditState :=
  { st with issues := st.issues ++ [i], score := max 0 (st.score - i.deduction) }

/-- Reading the defaultdict: the recorded count of a key, zero when absent. -/
def dGet : List (Chars × Nat) → Chars → Nat
  | [], _ => 0
  | (a, v) :: rest, k => if a = k then v else dGet rest k

/-- Whether a key is present in the defaultdict. -/
def hasKey : List (Chars × Nat) → Chars → Bool
  | [], _ => false
  | (a, _) :: rest, k => if a = k then true else hasKey rest k

/-- The write internal_links_map[key] += 1 on a defaultdict: increment in
    place when the key is present, else append the key with count one
    (defaultdict inserts zero on the read, the write then stores one). -/
def dIncr : List (Chars × Nat) → Chars → List (Chars × Nat)
  | [], k => [(k, 1)]
  | (a, v) :: rest, k => if a = k then (a, v + 1) :: rest else (a, v) :: dIncr rest k

/-- The bare defaultdict read internal_links_map[key]: inserts the key with
    count zero when it is absent and leaves the map unchanged otherwise. -/
def dTouch : List (Chars × Nat) → Chars → List (Chars × Nat)
  | [], k => [(k, 0)]
  | (a, v) :: rest, k => if a = k then (a, v) :: rest else (a, v) :: dTouch rest k

/-- Python set.add on the insertion-ordered model of external_links. -/
def addExternal (st : AuditState) (href : Chars) : AuditState :=
  { st with externals := if href ∈ st.externals then st.externals
                         else st.externals ++ [href] }

/-! ## audit.py: SiteAuditor.audit_page (lines 176-249) -/

/-- One parsed HTML page as the auditor sees it: its absolute path, the
    counts and flags the content checks look at, and the href values of its
    anchor tags in document order. -/
structure Page where
  path : Chars
  h1Count : Nat
  hasSchema : Bool
  hasBreadcrumb : Bool
  hrefs : List Chars

/-- The prefixes audit_page ignores outright (self.ignore_urls_prefixes). -/
def ignoreUrlPrefixes : List Chars :=
  [cs "/go/", cs "javascript:", cs "mailto:", cs "#"]

/-- The tail of the link loop shared by ordinary hrefs and absolute-URL
    hrefs that point at the site itself: URL-normality warnings, then the
    dead-link check, incrementing the inbound tally on success. -/
def auditLinkLocal (cfg : AuditCfg) (fs : FS) (pagePath rel : Chars)
    (st : AuditState) (href : Chars) : AuditState :=
  let st1 :=
    if ¬ (cs "/").isPrefixOf href ∧ ¬ (cs "#").isPrefixOf href
        ∧ ¬ (cs "http").isPrefixOf href then
      addIssue st (.relativePathUsed rel href)
    else st
  let st2 :=
    if (cs ".html").isSuffixOf href then addIssue st1 (.htmlSuffixUsed rel href) else st1
  match resolveLocalPath cfg fs pagePath href with
  | some target => { st2 with map := dIncr st2.map target }
  | none => addIssue st2 (.deadLink rel href)

/-- The body of the link loop of audit_page for one href. -/
def auditLink (cfg : AuditCfg) (fs : FS) (pagePath rel : Chars)
    (st : AuditState) (href : Chars) : AuditState :=
  if ignoreUrlPrefixes.any (fun p => p.isPrefixOf href) then st
  else if (cs "http://").isPrefixOf href || (cs "https://").isPrefixOf href then
    match cfg.baseUrl with
    | some b =>
        if b.isPrefixOf href then
          auditLinkLocal cfg fs pagePath rel (addIssue st (.absoluteInternal rel href)) href
        else addExternal st href
    | none => addExternal st href
  else auditLinkLocal cfg fs pagePath rel st href

/-- The content checks opening audit_page: the H1 count check, the JSON-LD
    schema check, and the breadcrumb heuristic for non-index pages. -/
def contentIssues (cfg : AuditCfg) (st : AuditState) (pg : Page) : AuditState :=
  let rel := relPath cfg.rootDir pg.path
  let st1 :=
    if pg.h1Count = 0 then addIssue st (.missingH1 rel)
    else if 1 < pg.h1Count then addIssue st (.multipleH1 rel)
    else st
  let st2 := if pg.hasSchema then st1 else addIssue st1 (.missingSchema rel)
  if basename pg.path ≠ cs "index.html" ∧ ¬ pg.hasBreadcrumb
      ∧ rel ≠ cs "index.html" then
    addIssue st2 (.missingBreadcrumb rel)
  else st2

/-- audit.py SiteAuditor.audit_page: the content checks followed by the link
    loop. -/
def auditPage (cfg : AuditCfg) (fs : FS) (st : AuditState) (pg : Page) : AuditState :=
  pg.hrefs.foldl (auditLink cfg fs pg.path (relPath cfg.rootDir pg.path))
    (contentIssues cfg st pg)

/-- The run loop over the scanned pages (SiteAuditor.run, audit phase). -/
def auditAll (cfg : AuditCfg) (fs : FS) (pages : List Page) : AuditState :=
  pages.foldl (auditPage cfg fs) initState

/-- Claim C6: the score starts at 100 and each add_issue call takes it to
    max(0, score - deduction), so along any sequence of recorded issues it
    stays an integer between 0 and 100 and never increases. -/
theorem c6_score_floor_monotone (l : List Issue) :
    0 ≤ (l.foldl addIssue initState).score
      ∧ (l.foldl addIssue initState).score ≤ 100
      ∧ ∀ i : Issue,
          ((l ++ [i]).foldl addIssue initState).score
              = max 0 ((l.foldl addIssue initState).score - i.deduction)
            ∧ ((l ++ [i]).foldl addIssue initState).score
              ≤ (l.foldl addIssue initState).score := by
  have key : ∀ (l : List Issue) (st : AuditState), 0 ≤ st.score →
      0 ≤ (l.foldl addIssue st).score ∧ (l.foldl addIssue st).score ≤ st.score := by
    intro l
    induction l with
    | nil => intro st h; exact ⟨h, le_refl _⟩
    | cons i rest ih =>
        intro st h
        have hstep : 0 ≤ (addIssue st i).score ∧ (addIssue st i).score ≤ st.score := by
          unfold addIssue
          constructor
          · exact le_max_left 0 _
          · have : (st.score - (i.deduction : Int)) ≤ st.score := by
              have : (0 : Int) ≤ (i.deduction : Int) := Int.ofNat_nonneg _
              omega
            simp only [max_le_iff]
            exact ⟨h, this⟩
        obtain ⟨h1, h2⟩ := ih (addIssue st i) hstep.1
        exact ⟨by simpa using h1, le_trans (by simpa using h2) hstep.2⟩
  have base : (0 : Int) ≤ initState.score := by decide
  obtain ⟨hl, hu⟩ := key l initState base
  refine ⟨hl, hu, ?_⟩
  intro i
  constructor
  · simp [List.foldl_append, addIssue]
  · simp only [List.foldl_append, List.foldl_cons, List.foldl_nil]
    unfold addIssue
    have : (0 : Int) ≤ (i.deduction : Int) := Int.ofNat_nonneg _
    simp only [max_le_iff]
    exact ⟨hl, by omega⟩

/-! ## Claim C2: the inbound-link tally -/

/-- Whether the link loop files an href under external links and skips local
    resolution: it is an absolute URL and does not carry the detected base
    URL as a prefix. -/
def isExternalSkip (cfg : AuditCfg) (href : Chars) : Bool :=
  ((cs "http://").isPrefixOf href || (cs "https://").isPrefixOf href)
    && !(match cfg.baseUrl with
         | some b => b.isPrefixOf href
         | none => false)

/-- The resolved target, if any, the link loop records for one href: ignored
    prefixes and external hrefs yield none, everything else resolves through
    resolve_local_path. -/
def linkTarget (cfg : AuditCfg) (fs : FS) (pagePath href : Chars) : Option Chars :=
  if ignoreUrlPrefixes.any (fun p => p.isPrefixOf href) then none
  else if isExternalSkip cfg href then none
  else resolveLocalPath cfg fs pagePath href

/-- The internal hrefs of one page that resolve, in document order. -/
def resolvedTargets (cfg : AuditCfg) (fs : FS) (pg : Page) : List Chars :=
  pg.hrefs.filterMap (linkTarget cfg fs pg.path)

/-- The number of resolved internal hrefs across all pages that point at the
    given target, one per occurrence. -/
def tallySpec (cfg : AuditCfg) (fs : FS) : List Page → Chars → Nat
  | [], _ => 0
  | pg :: rest, t => (resolvedTargets cfg fs pg).count t + tallySpec cfg fs rest t

theorem addIssue_map (st : AuditState) (i : Issue) : (addIssue st i).map = st.map := rfl

theorem map_of_ite_addIssue (c : Prop) [Decidable c] (st : AuditState) (i : Issue) :
    (if c then addIssue st i else st).map = st.map := by
  split <;> rfl

theorem auditLinkLocal_map (cfg : AuditCfg) (fs : FS) (pp rel : Chars)
    (st : AuditState) (href : Chars) :
    (auditLinkLocal cfg fs pp rel st href).map =
      match resolveLocalPath cfg fs pp href with
      | some t => dIncr st.map t
      | none => st.map := by
  unfold auditLinkLocal
  cases hres : resolveLocalPath cfg fs pp href with
  | some t => simp [hres, map_of_ite_addIssue, addIssue_map]
  | none => simp [hres, map_of_ite_addIssue, addIssue_map]

theorem auditLink_map (cfg : AuditCfg) (fs : FS) (pp rel : Chars)
    (st : AuditState) (href : Chars) :
    (auditLink cfg fs pp rel st href).map =
      match linkTarget cfg fs pp href with
      | some t => dIncr st.map t
      | none => st.map := by
  unfold auditLink linkTarget isExternalSkip
  by_cases hig : ignoreUrlPrefixes.any (fun p => p.isPrefixOf href) = true
  · simp [hig]
  · simp only [hig, Bool.false_eq_true, if_false]
    by_cases hext :
        ((cs "http://").isPrefixOf href || (cs "https://").isPrefixOf href) = true
    · cases hb : cfg.baseUrl with
      | none =>
          simp [hext, addExternal]
      | some b =>
          by_cases hpre : b.isPrefixOf href = true
          · simp [hext, hpre, auditLinkLocal_map, addIssue_map]
          · simp [hext, hpre, addExternal]
    · simp [hext, auditLinkLocal_map]

theorem dGet_dIncr (m : List (Chars × Nat)) (k t : Chars) :
    dGet (dIncr m k) t = dGet m t + (if k = t then 1 else 0) := by
  induction m with
  | nil =>
      by_cases h : k = t <;> simp [dIncr, dGet, h]
  | cons hd rest ih =>
      obtain ⟨a, v⟩ := hd
      by_cases hak : a = k
      · subst hak
        by_cases hat : a = t <;> simp [dIncr, dGet, hat]
      · by_cases hat : a = t
        · subst hat
          have hkt : ¬ k = a := fun h => hak h.symm
          simp [dIncr, dGet, hak, hkt]
        · simp [dIncr, dGet, hak, hat, ih]

theorem contentIssues_map (cfg : AuditCfg) (st : AuditState) (pg : Page) :
    (contentIssues cfg st pg).map = st.map := by
  unfold contentIssues
  simp only [map_of_ite_addIssue, addIssue_map]
  split <;> split <;> simp [addIssue_map, map_of_ite_addIssue]

theorem foldl_auditLink_dGet (cfg : AuditCfg) (fs : FS) (pp rel : Chars)
    (hs : List Chars) (st : AuditState) (t : Chars) :
    dGet ((hs.foldl (auditLink cfg fs pp rel) st).map) t
      = dGet st.map t + (hs.filterMap (linkTarget cfg fs pp)).count t := by
  induction hs generalizing st with
  | nil => simp
  | cons h rest ih =>
      simp only [List.foldl_cons, List.filterMap_cons]
      rw [ih]
      cases hlt : linkTarget cfg fs pp h with
      | none =>
          have hm := auditLink_map cfg fs pp rel st h
          rw [hlt] at hm
          rw [hm]
      | some t2 =>
          have hm := auditLink_map cfg fs pp rel st h
          rw [hlt] at hm
          rw [hm, dGet_dIncr, List.count_cons]
          by_cases ht2 : t2 = t
          · subst ht2
            simp
            omega
          · simp [ht2]

theorem auditPage_dGet (cfg : AuditCfg) (fs : FS) (st : AuditState) (pg : Page)
    (t : Chars) :
    dGet ((auditPage cfg fs st pg).map) t
      = dGet st.map t + (resolvedTargets cfg fs pg).count t := by
  unfold auditPage resolvedTargets
  rw [foldl_auditLink_dGet, contentIssues_map]

theorem foldl_auditPage_dGet (cfg : AuditCfg) (fs : FS) (pages : List Page)
    (st : AuditState) (t : Chars) :
    dGet ((pages.foldl (auditPage cfg fs) st).map) t
      = dGet st.map t + tallySpec cfg fs pages t := by
  induction pages generalizing st with
  | nil => simp [tallySpec]
  | cons pg rest ih =>
      simp only [List.foldl_cons, tallySpec]
      rw [ih, auditPage_dGet]
      omega

/-- Claim C2: after auditing all pages, the tally recorded for a target
    equals the number of internal hrefs across all pages that resolve to it,
    counted once per occurrence. -/
theorem c2_inbound_tally (cfg : AuditCfg) (fs : FS) (pages : List Page) (t : Chars) :
    dGet ((auditAll cfg fs pages).map) t = tallySpec cfg fs pages t := by
  unfold auditAll
  rw [foldl_auditPage_dGet]
  simp [initState, dGet]

/-! ## audit.py: SiteAuditor.check_external_links (lines 149-174)

The network is modelled by two oracles giving the outcome of a HEAD and of a
GET request per URL: ok with the HTTP status code, or error for a raised
RequestException.  The worker pool only evaluates check_url on distinct URLs
and reports results back on the submitting thread, so the per-URL issue
counts proved below do not depend on completion order; the model runs the
checks in submission order. -/

/-- The trusted allow-list self.trusted_external_links. -/
def trustedExternalLinks : List Chars :=
  [cs "https://unogs.com/", cs "https://unogs.com"]

/-- audit.py check_url (inner function of check_external_links): HEAD first,
    re-issued as GET exactly on status 403 or 405, connection failures caught;
    returns the broken status (some code, or none for a connection error)
    when the final outcome is status at least 400 or an exception. -/
def checkUrl (head get : Chars → Except Unit Nat) (url : Chars) : Option (Option Nat) :=
  match head url with
  | .error _ => some none
  | .ok s =>
      if s = 405 ∨ s = 403 then
        match get url with
        | .error _ => some none
        | .ok s2 => if 400 ≤ s2 then some (some s2) else none
      else if 400 ≤ s then some (some s) else none

/-- audit.py SiteAuditor.check_external_links: drop trusted URLs, check the
    rest, and report one Broken External Link issue per failing URL. -/
def checkExternalLinks (head get : Chars → Except Unit Nat)
    (externals : List Chars) : List Issue :=
  (externals.filter (fun u => decide (u ∉ trustedExternalLinks))).filterMap
    (fun u => (checkUrl head get u).map (fun s => Issue.brokenExternal u s))

/-! ## audit.py: SiteAuditor.analyze_equity (lines 251-265) -/

/-- The body of the orphan loop for one scanned file: the homepage is skipped
    before the map is read; for every other file the defaultdict read inserts
    the key when absent, and a zero tally files an orphan warning. -/
def equityStep (root : Chars) (st : AuditState) (f : Chars) : AuditState :=
  if relPath root f = cs "index.html" then st
  else
    let v := dGet st.map f
    let st1 := { st with map := dTouch st.map f }
    if v = 0 then addIssue st1 (.orphanPage (relPath root f)) else st1

/-- Stable insertion for the descending sort: the element goes in front of
    the first entry whose count does not exceed its own. -/
def insDesc (x : Chars × Nat) : List (Chars × Nat) → List (Chars × Nat)
  | [] => [x]
  | y :: l => if y.2 ≤ x.2 then x :: y :: l else y :: insDesc x l

/-- Python sorted with key count and reverse true: a stable sort by count,
    descending. -/
def sortDesc : List (Chars × Nat) → List (Chars × Nat)
  | [] => []
  | x :: l => insDesc x (sortDesc l)

/-- audit.py SiteAuditor.analyze_equity: the orphan loop over the scanned
    files followed by the top-pages ranking, truncated to ten entries. -/
def analyzeEquity (root : Chars) (files : List Chars) (st : AuditState) :
    AuditState × List (Chars × Nat) :=
  let st2 := files.foldl (equityStep root) st
  (st2, (sortDesc st2.map).take 10)

/-- audit.py SiteAuditor.run after auto-configuration: audit every scanned
    page, check the collected external links, then analyze link equity. -/
def runAudit (cfg : AuditCfg) (fs : FS) (head get : Chars → Except Unit Nat)
    (pages : List Page) : AuditState × List (Chars × Nat) :=
  let st1 := auditAll cfg fs pages
  let st2 := (checkExternalLinks head get st1.externals).foldl addIssue st1
  analyzeEquity cfg.rootDir (pages.map Page.path) st2

/-! ## Claim C3: orphan classification -/

theorem dGet_dTouch (m : List (Chars × Nat)) (k t : Chars) :
    dGet (dTouch m k) t = dGet m t := by
  induction m with
  | nil => by_cases h : k = t <;> simp [dTouch, dGet, h]
  | cons hd rest ih =>
      obtain ⟨a, v⟩ := hd
      by_cases hak : a = k
      · simp [dTouch, hak]
      · by_cases hat : a = t
        · subst hat
          simp [dTouch, dGet, hak]
        · simp [dTouch, dGet, hak, hat, ih]

theorem equityStep_dGet (root : Chars) (st : AuditState) (f t : Chars) :
    dGet (equityStep root st f).map t = dGet st.map t := by
  unfold equityStep
  by_cases h1 : relPath root f = cs "index.html"
  · simp [h1]
  · by_cases h2 : dGet st.map f = 0 <;> simp [h1, h2, addIssue, dGet_dTouch]

theorem equityStep_issues (root : Chars) (st : AuditState) (f : Chars) :
    (equityStep root st f).issues
      = st.issues
        ++ (if relPath root f ≠ cs "index.html" ∧ dGet st.map f = 0
            then [Issue.orphanPage (relPath root f)] else []) := by
  unfold equityStep
  by_cases h1 : relPath root f = cs "index.html"
  · simp [h1]
  · by_cases h2 : dGet st.map f = 0 <;> simp [h1, h2, addIssue]

theorem foldl_equity_orphan (root : Chars) (files : List Chars) (st : AuditState)
    (R : Chars) :
    Issue.orphanPage R ∈ (files.foldl (equityStep root) st).issues
      ↔ Issue.orphanPage R ∈ st.issues
        ∨ ∃ f, f ∈ files ∧ relPath root f = R ∧ relPath root f ≠ cs "index.html"
            ∧ dGet st.map f = 0 := by
  induction files generalizing st with
  | nil => simp
  | cons f rest ih =>
      simp only [List.foldl_cons]
      rw [ih]
      have hstep : Issue.orphanPage R ∈ (equityStep root st f).issues
          ↔ Issue.orphanPage R ∈ st.issues
            ∨ (relPath root f = R ∧ relPath root f ≠ cs "index.html"
                ∧ dGet st.map f = 0) := by
        rw [equityStep_issues]
        by_cases hc : relPath root f ≠ cs "index.html" ∧ dGet st.map f = 0
        · rw [if_pos hc]
          simp only [List.mem_append, List.mem_singleton]
          constructor
          · rintro (h | h)
            · exact Or.inl h
            · injection h with h2
              exact Or.inr ⟨h2.symm, hc.1, hc.2⟩
          · rintro (h | ⟨h1, _, _⟩)
            · exact Or.inl h
            · exact Or.inr (by rw [h1])
        · rw [if_neg hc]
          simp only [List.append_nil]
          constructor
          · exact Or.inl
          · rintro (h | ⟨h1, h2, h3⟩)
            · exact h
            · exact absurd ⟨h2, h3⟩ hc
      rw [hstep]
      constructor
      · rintro ((h | h) | ⟨f2, hmem, h1, h2, h3⟩)
        · exact Or.inl h
        · exact Or.inr ⟨f, List.mem_cons_self f rest, h⟩
        · rw [equityStep_dGet] at h3
          exact Or.inr ⟨f2, List.mem_cons_of_mem f hmem, h1, h2, h3⟩
      · rintro (h | ⟨f2, hmem, h1, h2, h3⟩)
        · exact Or.inl (Or.inl h)
        · rcases List.mem_cons.mp hmem with rfl | hmem2
          · exact Or.inl (Or.inr ⟨h1, h2, h3⟩)
          · exact Or.inr ⟨f2, hmem2, h1, h2, by rw [equityStep_dGet]; exact h3⟩

/-- Whether an issue is an orphan warning; only analyze_equity produces
    these. -/
def Issue.isOrphan : Issue → Bool
  | orphanPage _ => true
  | _ => false

/-- A state whose issue log holds no orphan issue yet. -/
def NoOrphan (st : AuditState) : Prop := ∀ i ∈ st.issues, i.isOrphan = false

theorem noOrphan_addIssue (st : AuditState) (i : Issue)
    (hi : i.isOrphan = false) (h0 : NoOrphan st) : NoOrphan (addIssue st i) := by
  intro j hj
  simp only [addIssue, List.mem_append, List.mem_singleton] at hj
  rcases hj with hj | hj
  · exact h0 j hj
  · rw [hj]; exact hi

theorem noOrphan_ite_addIssue (c : Prop) [Decidable c] (st : AuditState) (i : Issue)
    (hi : i.isOrphan = false) (h0 : NoOrphan st) :
    NoOrphan (if c then addIssue st i else st) := by
  split
  · exact noOrphan_addIssue st i hi h0
  · exact h0

theorem noOrphan_set_map (st : AuditState) (m : List (Chars × Nat))
    (h0 : NoOrphan st) : NoOrphan { st with map := m } := h0

theorem noOrphan_auditLinkLocal (cfg : AuditCfg) (fs : FS) (pp rel : Chars)
    (st : AuditState) (href : Chars) (h0 : NoOrphan st) :
    NoOrphan (auditLinkLocal cfg fs pp rel st href) := by
  unfold auditLinkLocal
  cases resolveLocalPath cfg fs pp href with
  | some t =>
      exact noOrphan_set_map _ _
        (noOrphan_ite_addIssue _ _ _ rfl (noOrphan_ite_addIssue _ _ _ rfl h0))
  | none =>
      exact noOrphan_addIssue _ _ rfl
        (noOrphan_ite_addIssue _ _ _ rfl (noOrphan_ite_addIssue _ _ _ rfl h0))

theorem noOrphan_auditLink (cfg : AuditCfg) (fs : FS) (pp rel : Chars)
    (st : AuditState) (href : Chars) (h0 : NoOrphan st) :
    NoOrphan (auditLink cfg fs pp rel st href) := by
  unfold auditLink
  by_cases hig : ignoreUrlPrefixes.any (fun p => p.isPrefixOf href) = true
  · rw [if_pos hig]
    exact h0
  · rw [if_neg hig]
    by_cases hext :
        ((cs "http://").isPrefixOf href || (cs "https://").isPrefixOf href) = true
    · rw [if_pos hext]
      cases cfg.baseUrl with
      | none => exact h0
      | some b =>
          by_cases hpre : b.isPrefixOf href = true
          · show NoOrphan (if List.isPrefixOf b href = true
                then auditLinkLocal cfg fs pp rel
                  (addIssue st (Issue.absoluteInternal rel href)) href
                else addExternal st href)
            rw [if_pos hpre]
            exact noOrphan_auditLinkLocal cfg fs pp rel _ href
              (noOrphan_addIssue st (.absoluteInternal rel href) rfl h0)
          · show NoOrphan (if List.isPrefixOf b href = true
                then auditLinkLocal cfg fs pp rel
                  (addIssue st (Issue.absoluteInternal rel href)) href
                else addExternal st href)
            rw [if_neg hpre]
            exact h0
    · rw [if_neg hext]
      exact noOrphan_auditLinkLocal cfg fs pp rel st href h0

theorem noOrphan_contentIssues (cfg : AuditCfg) (st : AuditState) (pg : Page)
    (h0 : NoOrphan st) : NoOrphan (contentIssues cfg st pg) := by
  simp only [contentIssues]
  refine noOrphan_ite_addIssue _ _
    (.missingBreadcrumb (relPath cfg.rootDir pg.path)) rfl ?_
  have h1 : NoOrphan (if pg.h1Count = 0
      then addIssue st (.missingH1 (relPath cfg.rootDir pg.path))
      else if 1 < pg.h1Count
        then addIssue st (.multipleH1 (relPath cfg.rootDir pg.path))
        else st) := by
    split
    · exact noOrphan_addIssue st (.missingH1 _) rfl h0
    · split
      · exact noOrphan_addIssue st (.multipleH1 _) rfl h0
      · exact h0
  split
  · exact h1
  · exact noOrphan_addIssue _ (.missingSchema _) rfl h1

theorem noOrphan_auditPage (cfg : AuditCfg) (fs : FS) (st : AuditState) (pg : Page)
    (h0 : NoOrphan st) : NoOrphan (auditPage cfg fs st pg) := by
  unfold auditPage
  have key : ∀ (hs : List Chars) (s : AuditState), NoOrphan s →
      NoOrphan (hs.foldl (auditLink cfg fs pg.path (relPath cfg.rootDir pg.path)) s) := by
    intro hs
    induction hs with
    | nil => intro s h; exact h
    | cons a rest ih =>
        intro s h
        exact ih _ (noOrphan_auditLink cfg fs _ _ s a h)
  exact key pg.hrefs _ (noOrphan_contentIssues cfg st pg h0)

theorem noOrphan_auditAll (cfg : AuditCfg) (fs : FS) (pages : List Page) :
    NoOrphan (auditAll cfg fs pages) := by
  unfold auditAll
  have key : ∀ (ps : List Page) (s : AuditState), NoOrphan s →
      NoOrphan (ps.foldl (auditPage cfg fs) s) := by
    intro ps
    induction ps with
    | nil => intro s h; exact h
    | cons p rest ih => intro s h; exact ih _ (noOrphan_auditPage cfg fs s p h)
  exact key pages initState (fun i h => absurd h (List.not_mem_nil i))

theorem noOrphan_external_fold (issues : List Issue) (st : AuditState)
    (hiss : ∀ i ∈ issues, i.isOrphan = false) (h0 : NoOrphan st) :
    NoOrphan (issues.foldl addIssue st) := by
  induction issues generalizing st with
  | nil => exact h0
  | cons i rest ih =>
      refine ih _ (fun j hj => hiss j (List.mem_cons_of_mem i hj)) ?_
      exact noOrphan_addIssue st i (hiss i (List.mem_cons_self i rest)) h0

theorem checkExternalLinks_shape (head get : Chars → Except Unit Nat)
    (externals : List Chars) :
    ∀ i ∈ checkExternalLinks head get externals, i.isOrphan = false := by
  intro i hi
  unfold checkExternalLinks at hi
  rcases List.mem_filterMap.mp hi with ⟨u, _, hu⟩
  rcases Option.map_eq_some'.mp hu with ⟨s, _, hs⟩
  rw [← hs]
  rfl

theorem external_fold_map (issues : List Issue) (st : AuditState) :
    (issues.foldl addIssue st).map = st.map := by
  induction issues generalizing st with
  | nil => rfl
  | cons i rest ih => simp [List.foldl_cons, ih, addIssue]

/-- Claim C3: over a full audit run, a page is flagged as an orphan exactly
    when it is a scanned page other than the homepage whose inbound tally is
    zero, and the homepage is never flagged regardless of its tally. -/
theorem c3_orphan_iff (cfg : AuditCfg) (fs : FS) (head get : Chars → Except Unit Nat)
    (pages : List Page) (R : Chars) :
    (Issue.orphanPage R ∈ (runAudit cfg fs head get pages).1.issues
        ↔ ∃ f, f ∈ pages.map Page.path ∧ relPath cfg.rootDir f = R
            ∧ relPath cfg.rootDir f ≠ cs "index.html"
            ∧ dGet (auditAll cfg fs pages).map f = 0)
      ∧ Issue.orphanPage (cs "index.html") ∉ (runAudit cfg fs head get pages).1.issues := by
  have hbase : NoOrphan
      ((checkExternalLinks head get (auditAll cfg fs pages).externals).foldl addIssue
        (auditAll cfg fs pages)) :=
    noOrphan_external_fold _ _ (checkExternalLinks_shape head get _)
      (noOrphan_auditAll cfg fs pages)
  have hmap :
      ((checkExternalLinks head get (auditAll cfg fs pages).externals).foldl addIssue
        (auditAll cfg fs pages)).map = (auditAll cfg fs pages).map :=
    external_fold_map _ _
  have hmain : ∀ S : Chars,
      Issue.orphanPage S ∈ (runAudit cfg fs head get pages).1.issues
        ↔ ∃ f, f ∈ pages.map Page.path ∧ relPath cfg.rootDir f = S
            ∧ relPath cfg.rootDir f ≠ cs "index.html"
            ∧ dGet (auditAll cfg fs pages).map f = 0 := by
    intro S
    unfold runAudit analyzeEquity
    rw [foldl_equity_orphan]
    constructor
    · rintro (h | ⟨f, hmem, h1, h2, h3⟩)
      · have := hbase _ h
        simp [Issue.isOrphan] at this
      · rw [hmap] at h3
        exact ⟨f, hmem, h1, h2, h3⟩
    · rintro ⟨f, hmem, h1, h2, h3⟩
      exact Or.inr ⟨f, hmem, h1, h2, by rw [hmap]; exact h3⟩
  refine ⟨hmain R, ?_⟩
  intro h
  rcases (hmain (cs "index.html")).mp h with ⟨f, _, h1, h2, _⟩
  exact h2 h1

/-! ## Claim C8: the top-pages ranking -/

theorem insDesc_perm (x : Chars × Nat) (l : List (Chars × Nat)) :
    (insDesc x l).Perm (x :: l) := by
  induction l with
  | nil => exact List.Perm.refl _
  | cons y l ih =>
      unfold insDesc
      by_cases hyx : y.2 ≤ x.2
      · rw [if_pos hyx]
      · rw [if_neg hyx]
        exact (List.Perm.cons y ih).trans (List.Perm.swap x y l)

theorem sortDesc_perm (l : List (Chars × Nat)) : (sortDesc l).Perm l := by
  induction l with
  | nil => exact List.Perm.refl _
  | cons x l ih =>
      exact (insDesc_perm x (sortDesc l)).trans (List.Perm.cons x ih)

theorem insDesc_pairwise (x : Chars × Nat) (l : List (Chars × Nat))
    (h : l.Pairwise (fun a b => b.2 ≤ a.2)) :
    (insDesc x l).Pairwise (fun a b => b.2 ≤ a.2) := by
  induction l with
  | nil => simp [insDesc]
  | cons y l ih =>
      rcases List.pairwise_cons.mp h with ⟨hy, hl⟩
      unfold insDesc
      by_cases hyx : y.2 ≤ x.2
      · rw [if_pos hyx]
        refine List.pairwise_cons.mpr ⟨?_, h⟩
        intro z hz
        rcases List.mem_cons.mp hz with rfl | hz2
        · exact hyx
        · exact le_trans (hy z hz2) hyx
      · rw [if_neg hyx]
        refine List.pairwise_cons.mpr ⟨?_, ih hl⟩
        intro z hz
        have hz2 : z = x ∨ z ∈ l := by
          have hmem := (insDesc_perm x l).mem_iff.mp hz
          simpa using hmem
        rcases hz2 with rfl | hz2
        · exact le_of_lt (Nat.lt_of_not_le hyx)
        · exact hy z hz2

theorem sortDesc_pairwise (l : List (Chars × Nat)) :
    (sortDesc l).Pairwise (fun a b => b.2 ≤ a.2) := by
  induction l with
  | nil => simp [sortDesc]
  | cons x l ih => exact insDesc_pairwise x (sortDesc l) ih

theorem insDesc_filter (x : Chars × Nat) (l : List (Chars × Nat)) (c : Nat) :
    (insDesc x l).filter (fun p => p.2 == c)
      = (if x.2 = c then [x] else []) ++ l.filter (fun p => p.2 == c) := by
  induction l with
  | nil =>
      by_cases hx : x.2 = c
      · simp [insDesc, List.filter, beq_iff_eq, hx]
      · have hb : (x.2 == c) = false := by simp [hx]
        simp [insDesc, List.filter, hb, hx]
  | cons y l ih =>
      unfold insDesc
      by_cases hyx : y.2 ≤ x.2
      · rw [if_pos hyx]
        by_cases hx : x.2 = c <;> by_cases hy : y.2 = c <;>
          simp [List.filter_cons, beq_iff_eq, hx, hy]
      · rw [if_neg hyx]
        by_cases hy : y.2 = c
        · have hx : ¬ x.2 = c := by omega
          simp [List.filter_cons, beq_iff_eq, hy, hx, ih]
        · simp [List.filter_cons, beq_iff_eq, hy, ih]

theorem sortDesc_filter (l : List (Chars × Nat)) (c : Nat) :
    (sortDesc l).filter (fun p => p.2 == c) = l.filter (fun p => p.2 == c) := by
  induction l with
  | nil => rfl
  | cons x l ih =>
      show (insDesc x (sortDesc l)).filter (fun p => p.2 == c) = _
      rw [insDesc_filter, ih, List.filter_cons]
      by_cases hx : x.2 = c <;> simp [beq_iff_eq, hx]

/-- Claim C8, amended: the top-pages report is the first ten entries of a
    stable descending sort of the inbound-link map, so pages are ordered by
    count descending with ties broken by the order in which targets were
    first inserted into the map (first-link order during the audit, then the
    orphan-scan insertions), not by page discovery order; at most ten entries
    are reported.  Stability is expressed by the filter identity: entries of
    any fixed count appear in the sorted list exactly in map order. -/
theorem c8_top_pages_amended (root : Chars) (files : List Chars) (st : AuditState) :
    (analyzeEquity root files st).2
        = (sortDesc ((files.foldl (equityStep root) st).map)).take 10
      ∧ (analyzeEquity root files st).2.length ≤ 10
      ∧ (sortDesc ((files.foldl (equityStep root) st).map)).Pairwise
          (fun a b => b.2 ≤ a.2)
      ∧ ((sortDesc ((files.foldl (equityStep root) st).map))).Perm
          ((files.foldl (equityStep root) st).map)
      ∧ ∀ c : Nat,
          (sortDesc ((files.foldl (equityStep root) st).map)).filter
              (fun p => p.2 == c)
            = ((files.foldl (equityStep root) st).map).filter (fun p => p.2 == c) := by
  refine ⟨rfl, ?_, sortDesc_pairwise _, sortDesc_perm _, fun c => sortDesc_filter _ c⟩
  show ((sortDesc ((files.foldl (equityStep root) st).map)).take 10).length ≤ 10
  rw [List.length_take]
  exact min_le_left _ _

/-- A three-page example site: the homepage links to b then to a, so the map
    insertion order (b before a) differs from the discovery order (a before
    b) while both pages tie at one inbound link each. -/
def exCfg8 : AuditCfg := { rootDir := cs "/s", baseUrl := some (cs "https://ex.com") }

def exFS8 : FS :=
  { isFile := fun p =>
      [cs "/s/index.html", cs "/s/a.html", cs "/s/b.html"].contains p }

def exPages8 : List Page :=
  [{ path := cs "/s/index.html", h1Count := 1, hasSchema := true,
     hasBreadcrumb := true, hrefs := [cs "/b", cs "/a"] },
   { path := cs "/s/a.html", h1Count := 1, hasSchema := true,
     hasBreadcrumb := true, hrefs := [] },
   { path := cs "/s/b.html", h1Count := 1, hasSchema := true,
     hasBreadcrumb := true, hrefs := [] }]

def exFiles8 : List Chars := exPages8.map Page.path

/-- The ranking the claim describes: the map entries reordered by page
    discovery order (pages never inserted keep their map position at the
    end), then stably sorted by count descending and truncated to ten. -/
def claimReorder (files : List Chars) (m : List (Chars × Nat)) :
    List (Chars × Nat) :=
  files.filterMap (fun f => if hasKey m f then some (f, dGet m f) else none)
    ++ m.filter (fun p => !(files.contains p.1))

def claimTopPages (files : List Chars) (m : List (Chars × Nat)) :
    List (Chars × Nat) :=
  (sortDesc (claimReorder files m)).take 10

/-- Claim C8, counterexample: on the example site both a.html and b.html tie
    at one inbound link; the audit run reports b.html first (map insertion
    order: the homepage links b before a) while the claimed
    discovery-order tie-break would report a.html first. -/
theorem c8_top_pages_counterexample :
    (analyzeEquity (cs "/s") exFiles8 (auditAll exCfg8 exFS8 exPages8)).2
        = [(cs "/s/b.html", 1), (cs "/s/a.html", 1)]
      ∧ claimTopPages exFiles8
          (analyzeEquity (cs "/s") exFiles8 (auditAll exCfg8 exFS8 exPages8)).1.map
        = [(cs "/s/a.html", 1), (cs "/s/b.html", 1)]
      ∧ (analyzeEquity (cs "/s") exFiles8 (auditAll exCfg8 exFS8 exPages8)).2
        ≠ claimTopPages exFiles8
            (analyzeEquity (cs "/s") exFiles8 (auditAll exCfg8 exFS8 exPages8)).1.map := by
  decide

/-! ## Claim C10: the orphan scan mutates the inbound-link map -/

theorem hasKey_dTouch (m : List (Chars × Nat)) (k t : Chars) :
    hasKey (dTouch m k) t = (hasKey m t || decide (k = t)) := by
  induction m with
  | nil => by_cases h : k = t <;> simp [dTouch, hasKey, h]
  | cons hd rest ih =>
      obtain ⟨a, v⟩ := hd
      by_cases hak : a = k
      · subst hak
        by_cases hat : a = t <;> simp [dTouch, hasKey, hat]
      · by_cases hat : a = t
        · subst hat
          simp [dTouch, hasKey, hak]
        · simp [dTouch, hasKey, hak, hat, ih]

theorem equityStep_hasKey_mono (root : Chars) (st : AuditState) (f t : Chars)
    (h : hasKey st.map t = true) : hasKey (equityStep root st f).map t = true := by
  unfold equityStep
  by_cases h1 : relPath root f = cs "index.html"
  · rw [if_pos h1]
    exact h
  · rw [if_neg h1]
    by_cases h2 : dGet st.map f = 0 <;>
      simp [h2, addIssue, hasKey_dTouch, h]

theorem foldl_equity_hasKey_mono (root : Chars) (files : List Chars)
    (st : AuditState) (t : Chars) (h : hasKey st.map t = true) :
    hasKey ((files.foldl (equityStep root) st).map) t = true := by
  induction files generalizing st with
  | nil => exact h
  | cons f rest ih =>
      exact ih _ (equityStep_hasKey_mono root st f t h)

theorem foldl_equity_dGet (root : Chars) (files : List Chars) (st : AuditState)
    (t : Chars) :
    dGet ((files.foldl (equityStep root) st).map) t = dGet st.map t := by
  induction files generalizing st with
  | nil => rfl
  | cons f rest ih =>
      rw [List.foldl_cons, ih, equityStep_dGet]

theorem dGet_zero_of_not_hasKey (m : List (Chars × Nat)) (t : Chars)
    (h : hasKey m t = false) : dGet m t = 0 := by
  induction m with
  | nil => rfl
  | cons hd rest ih =>
      obtain ⟨a, v⟩ := hd
      by_cases hat : a = t
      · simp [hasKey, hat] at h
      · simp [hasKey, hat] at h
        simp [dGet, hat, ih h]

/-- A second example site used for the zero-count entry of the ranking: the
    homepage links only to a.html, so b.html is an orphan that the equity
    scan inserts with tally zero. -/
def exCfg10 : AuditCfg := { rootDir := cs "/t", baseUrl := none }

def exFS10 : FS :=
  { isFile := fun p =>
      [cs "/t/index.html", cs "/t/a.html", cs "/t/b.html"].contains p }

def exPages10 : List Page :=
  [{ path := cs "/t/index.html", h1Count := 1, hasSchema := true,
     hasBreadcrumb := true, hrefs := [cs "/a"] },
   { path := cs "/t/a.html", h1Count := 1, hasSchema := true,
     hasBreadcrumb := true, hrefs := [] },
   { path := cs "/t/b.html", h1Count := 1, hasSchema := true,
     hasBreadcrumb := true, hrefs := [] }]

def exFiles10 : List Chars := exPages10.map Page.path

/-- Claim C10, counterexample: it is not true that after equity analysis
    every scanned page is a key of the inbound-link map.  On the example
    site the homepage is scanned but never linked, and the orphan loop skips
    it with continue before the defaultdict lookup, so it never becomes a
    key. -/
theorem c10_orphan_scan_counterexample :
    (cs "/s/index.html") ∈ exFiles8
      ∧ hasKey
          (analyzeEquity (cs "/s") exFiles8 (auditAll exCfg8 exFS8 exPages8)).1.map
          (cs "/s/index.html") = false := by
  decide

/-- Claim C10, amended: the orphan scan inserts, with count zero, every
    scanned page it actually reads the tally of, which is every scanned page
    other than the homepage (the homepage is skipped before the lookup and
    need not end up a key); a page absent before the scan keeps tally zero
    afterwards, and the ranked top-pages list can contain zero-count
    entries. -/
theorem c10_orphan_scan_amended :
    (∀ (root : Chars) (files : List Chars) (st : AuditState) (f : Chars),
        f ∈ files → relPath root f ≠ cs "index.html" →
          hasKey ((files.foldl (equityStep root) st).map) f = true)
      ∧ (∀ (root : Chars) (files : List Chars) (st : AuditState) (f : Chars),
          hasKey st.map f = false →
            dGet ((files.foldl (equityStep root) st).map) f = 0)
      ∧ (analyzeEquity (cs "/t") exFiles10 (auditAll exCfg10 exFS10 exPages10)).2.contains
          (cs "/t/b.html", 0) = true := by
  refine ⟨?_, ?_, by decide⟩
  · intro root files st f hmem hne
    induction files generalizing st with
    | nil => exact absurd hmem (List.not_mem_nil f)
    | cons g rest ih =>
        rcases List.mem_cons.mp hmem with rfl | hmem2
        · rw [List.foldl_cons]
          refine foldl_equity_hasKey_mono root rest _ f ?_
          unfold equityStep
          rw [if_neg hne]
          by_cases h2 : dGet st.map f = 0 <;>
            simp [h2, addIssue, hasKey_dTouch]
        · rw [List.foldl_cons]
          exact ih _ hmem2
  · intro root files st f h
    rw [foldl_equity_dGet]
    exact dGet_zero_of_not_hasKey st.map f h

theorem c10_orphan_scan_amended_witness :
    hasKey ((exFiles10.foldl (equityStep (cs "/t"))
        (auditAll exCfg10 exFS10 exPages10)).map) (cs "/t/b.html") = true :=
  c10_orphan_scan_amended.1 (cs "/t") exFiles10
    (auditAll exCfg10 exFS10 exPages10) (cs "/t/b.html") (by decide) (by decide)

/-! ## Claim C7: external link checking -/

/-- Whether an issue is the Broken External Link issue for the given URL. -/
def isBrokenFor (url : Chars) : Issue → Bool
  | .brokenExternal u _ => u == url
  | _ => false

theorem addIssue_externals (st : AuditState) (i : Issue) :
    (addIssue st i).externals = st.externals := rfl

theorem externals_of_ite_addIssue (c : Prop) [Decidable c] (st : AuditState)
    (i : Issue) : (if c then addIssue st i else st).externals = st.externals := by
  split <;> rfl

theorem auditLinkLocal_externals (cfg : AuditCfg) (fs : FS) (pp rel : Chars)
    (st : AuditState) (href : Chars) :
    (auditLinkLocal cfg fs pp rel st href).externals = st.externals := by
  unfold auditLinkLocal
  cases resolveLocalPath cfg fs pp href with
  | some t => simp [externals_of_ite_addIssue, addIssue_externals]
  | none => simp [externals_of_ite_addIssue, addIssue_externals]

theorem nodup_addExternal (st : AuditState) (href : Chars)
    (h : st.externals.Nodup) : (addExternal st href).externals.Nodup := by
  unfold addExternal
  by_cases hc : href ∈ st.externals
  · simpa [hc] using h
  · simp only [hc, if_false]
    simp [List.nodup_append, h, hc]

theorem nodup_auditLink (cfg : AuditCfg) (fs : FS) (pp rel : Chars)
    (st : AuditState) (href : Chars) (h : st.externals.Nodup) :
    (auditLink cfg fs pp rel st href).externals.Nodup := by
  unfold auditLink
  by_cases hig : ignoreUrlPrefixes.any (fun p => p.isPrefixOf href) = true
  · rw [if_pos hig]
    exact h
  · rw [if_neg hig]
    by_cases hext :
        ((cs "http://").isPrefixOf href || (cs "https://").isPrefixOf href) = true
    · rw [if_pos hext]
      cases cfg.baseUrl with
      | none => exact nodup_addExternal st href h
      | some b =>
          by_cases hpre : b.isPrefixOf href = true
          · show (if List.isPrefixOf b href = true
                then auditLinkLocal cfg fs pp rel
                  (addIssue st (Issue.absoluteInternal rel href)) href
                else addExternal st href).externals.Nodup
            rw [if_pos hpre, auditLinkLocal_externals, addIssue_externals]
            exact h
          · show (if List.isPrefixOf b href = true
                then auditLinkLocal cfg fs pp rel
                  (addIssue st (Issue.absoluteInternal rel href)) href
                else addExternal st href).externals.Nodup
            rw [if_neg hpre]
            exact nodup_addExternal st href h
    · rw [if_neg hext, auditLinkLocal_externals]
      exact h

theorem contentIssues_externals (cfg : AuditCfg) (st : AuditState) (pg : Page) :
    (contentIssues cfg st pg).externals = st.externals := by
  unfold contentIssues
  simp only [externals_of_ite_addIssue, addIssue_externals]
  split <;> split <;> simp [externals_of_ite_addIssue, addIssue_externals]

theorem nodup_auditPage (cfg : AuditCfg) (fs : FS) (st : AuditState) (pg : Page)
    (h : st.externals.Nodup) : (auditPage cfg fs st pg).externals.Nodup := by
  unfold auditPage
  have key : ∀ (hs : List Chars) (s : AuditState), s.externals.Nodup →
      (hs.foldl (auditLink cfg fs pg.path (relPath cfg.rootDir pg.path)) s).externals.Nodup := by
    intro hs
    induction hs with
    | nil => intro s hnd; exact hnd
    | cons a rest ih => intro s hnd; exact ih _ (nodup_auditLink cfg fs _ _ s a hnd)
  refine key pg.hrefs _ ?_
  rw [contentIssues_externals]
  exact h

theorem nodup_auditAll (cfg : AuditCfg) (fs : FS) (pages : List Page) :
    (auditAll cfg fs pages).externals.Nodup := by
  unfold auditAll
  have key : ∀ (ps : List Page) (s : AuditState), s.externals.Nodup →
      (ps.foldl (auditPage cfg fs) s).externals.Nodup := by
    intro ps
    induction ps with
    | nil => intro s hnd; exact hnd
    | cons p rest ih => intro s hnd; exact ih _ (nodup_auditPage cfg fs s p hnd)
  exact key pages initState List.nodup_nil

theorem count_broken_zero (head get : Chars → Except Unit Nat) (url : Chars)
    (l : List Chars) (h : url ∉ l) :
    (((l.filterMap (fun u => (checkUrl head get u).map
        (fun s => Issue.brokenExternal u s)))).filter (isBrokenFor url)).length = 0 := by
  induction l with
  | nil => rfl
  | cons u rest ih =>
      have hne : ¬ u = url := fun he => h (he ▸ List.mem_cons_self u rest)
      have hrest : url ∉ rest := fun hm => h (List.mem_cons_of_mem u hm)
      rw [List.filterMap_cons]
      cases hc : checkUrl head get u with
      | none => simpa using ih hrest
      | some s =>
          simp only [Option.map_some']
          rw [List.filter_cons]
          have hb : isBrokenFor url (Issue.brokenExternal u s) = false := by
            simp [isBrokenFor, hne]
          simp only [hb, Bool.false_eq_true, if_false]
          exact ih hrest

theorem count_broken (head get : Chars → Except Unit Nat) (url : Chars)
    (l : List Chars) (h : l.Nodup) :
    (((l.filterMap (fun u => (checkUrl head get u).map
        (fun s => Issue.brokenExternal u s)))).filter (isBrokenFor url)).length
      = if url ∈ l ∧ (checkUrl head get url).isSome = true then 1 else 0 := by
  induction l with
  | nil => simp
  | cons u rest ih =>
      rcases List.nodup_cons.mp h with ⟨hnm, hnd⟩
      rw [List.filterMap_cons]
      by_cases hu : u = url
      · subst hu
        cases hc : checkUrl head get u with
        | none =>
            simp only [Option.map_none']
            rw [count_broken_zero head get u rest hnm]
            rw [if_neg]
            rintro ⟨-, hs⟩
            simp at hs
        | some s =>
            simp only [Option.map_some']
            rw [List.filter_cons]
            have hb : isBrokenFor u (Issue.brokenExternal u s) = true := by
              simp [isBrokenFor]
            simp only [hb, if_true]
            rw [List.length_cons, count_broken_zero head get u rest hnm]
            rw [if_pos ⟨List.mem_cons_self u rest, rfl⟩]
      · have hiff : (url ∈ u :: rest ∧ (checkUrl head get url).isSome = true)
            ↔ (url ∈ rest ∧ (checkUrl head get url).isSome = true) := by
          constructor
          · rintro ⟨hm, hs⟩
            rcases List.mem_cons.mp hm with rfl | hm2
            · exact absurd rfl hu
            · exact ⟨hm2, hs⟩
          · rintro ⟨hm, hs⟩
            exact ⟨List.mem_cons_of_mem u hm, hs⟩
        rw [if_congr hiff rfl rfl, ← ih hnd]
        cases hc : checkUrl head get u with
        | none => simp
        | some s =>
            simp only [Option.map_some']
            rw [List.filter_cons]
            have hb : isBrokenFor url (Issue.brokenExternal u s) = false := by
              simp [isBrokenFor, hu]
            simp only [hb, Bool.false_eq_true, if_false]

/-- Claim C7: external URLs are collected into a duplicate-free set, the
    trusted allow-list is excluded before checking, and each remaining URL
    whose check fails (final status at least 400 after the HEAD request,
    re-issued as GET only on 403 or 405, or a connection failure) produces
    exactly one Broken External Link issue carrying deduction 5, however
    many pages referenced the URL. -/
theorem c7_external_link_issues (cfg : AuditCfg) (fs : FS)
    (head get : Chars → Except Unit Nat) (pages : List Page) (url : Chars) :
    (auditAll cfg fs pages).externals.Nodup
      ∧ ((checkExternalLinks head get (auditAll cfg fs pages).externals).filter
            (isBrokenFor url)).length
        = (if url ∈ (auditAll cfg fs pages).externals ∧ url ∉ trustedExternalLinks
              ∧ (checkUrl head get url).isSome = true
           then 1 else 0)
      ∧ (checkExternalLinks head get (auditAll cfg fs pages).externals).all
          (fun i => i.deduction == 5) = true := by
  have hnd := nodup_auditAll cfg fs pages
  refine ⟨hnd, ?_, ?_⟩
  · unfold checkExternalLinks
    rw [count_broken head get url _ (hnd.filter _)]
    by_cases hcond : url ∈ (auditAll cfg fs pages).externals
        ∧ url ∉ trustedExternalLinks ∧ (checkUrl head get url).isSome = true
    · rw [if_pos hcond, if_pos]
      refine ⟨List.mem_filter.mpr ⟨hcond.1, by simp [hcond.2.1]⟩, hcond.2.2⟩
    · rw [if_neg hcond, if_neg]
      rintro ⟨hm, hs⟩
      rcases List.mem_filter.mp hm with ⟨hm1, hm2⟩
      simp only [decide_eq_true_eq] at hm2
      exact hcond ⟨hm1, hm2, hs⟩
  · rw [List.all_eq_true]
    intro i hi
    rcases List.mem_filterMap.mp hi with ⟨u, _, hu⟩
    rcases Option.map_eq_some'.mp hu with ⟨s, _, hs⟩
    rw [← hs]
    rfl

/-! ## build.py: the per-page transform (process_file, lines 841-927)

The tag tree manipulation done through the HTML parser is embedded at the
level of the document components process_file touches: the head fields
rebuild_head regenerates, the breadcrumb and style fixes, the swapped nav
and footer link lists, the processed article links, and the injected
recommendation block.  The call to random.sample inside
generate_recommendations is modelled by a sampling oracle passed in as a
function, and the date datetime.date.today() by the today argument. -/

/-- One blog post as assembled by get_blog_posts. -/
structure Post where
  filename : Chars
  url : Chars
  title : Chars
  description : Chars
  image : Chars
  mtime : Int
  deriving DecidableEq

/-- The fragments extract_assets pulls out of the root index.html, reduced
    to the parts process_file reuses: nav and footer link lists and the
    favicon tags. -/
structure Assets where
  navLinks : List Chars
  footerLinks : List Chars
  favicons : List Chars
  deriving DecidableEq

/-- One input page as the transform reads it. -/
structure InPage where
  filename : Chars
  title : Option Chars
  desc : Option Chars
  keywords : Option Chars
  keptHead : List Chars
  hasNav : Bool
  hasFooter : Bool
  hasBreadcrumbNav : Bool
  hasTimeTag : Bool
  hasArticle : Bool
  articleLinks : List Chars
  mtime : Int
  deriving DecidableEq

/-- The output document of the transform, by component. -/
structure OutDoc where
  title : Chars
  desc : Chars
  keywords : Option Chars
  canonicalUrl : Chars
  hreflangs : List Chars
  favicons : List Chars
  keptHead : List Chars
  jsonLdDate : Option Chars
  breadcrumbPresent : Bool
  styleFixed : Bool
  authorDateAdded : Bool
  navLinks : List Chars
  footerLinks : List Chars
  articleLinks : List Chars
  recs : List Post
  deriving DecidableEq

/-- The known homepage anchors of process_links. -/
def knownAnchors : List Chars :=
  [cs "platforms", cs "compare", cs "guide", cs "faq", cs "reviews"]

/-- The bare-fragment href rewrite applied to the swapped nav and footer
    copies in process_file. -/
def fixBareAnchor (h : Chars) : Chars :=
  if h = cs "#" ∨ h = cs "/#" then cs "/"
  else if (cs "#").isPrefixOf h then cs "/" ++ h
  else h

/-- build.py process_links for one href value: the blog-relative fix, the
    index fixes, the known-anchor fixes, then clean_link. -/
def processLinkHref (isBlog : Bool) (url0 : Chars) : Chars :=
  let url1 :=
    if isBlog = true ∧ url0 ≠ []
        ∧ ¬ startsWithAny url0 (schemeSkips ++ [cs "/"]) = true then
      if (cs "../").isPrefixOf url0 then cs "/" ++ url0.drop 3
      else if url0 = cs "index" ∨ url0 = cs "index.html" then cs "/blog/"
      else cs "/blog/" ++ url0
    else url0
  let url2 :=
    if url1 = cs "/index" ∨ url1 = cs "/index.html" then cs "/"
    else if (cs "/index.html#").isPrefixOf url1 then cs "/#" ++ url1.drop 12
    else if (cs "/index#").isPrefixOf url1 then cs "/#" ++ url1.drop 7
    else url1
  let url3 := knownAnchors.foldl
    (fun u a => if u = cs "/" ++ a then cs "/#" ++ a else u) url2
  cleanLink url3

/-- build.py generate_recommendations: the other posts (excluding the
    current page and one pinned filename); all of them when fewer than four
    remain, else a random.sample of four drawn by the sampling oracle. -/
def generateRecommendations (currentFilename : Chars) (allPosts : List Post)
    (sample : List Post → List Post) : List Post :=
  let others := allPosts.filter (fun p =>
    decide (p.filename ≠ currentFilename
      ∧ p.filename ≠ cs "how-to-change-netflix-language-to-chinese.html"))
  if others.length < 4 then others else sample others

/-- The clean filename rebuild_head and generate_json_ld derive: clean_link
    of the filename, with a bare index collapsed to the empty path. -/
def cleanFn (filename : Chars) : Chars :=
  let c := cleanLink filename
  if c = cs "index" then [] else c

/-- The canonical URL rebuild_head regenerates. -/
def canonicalUrlOf (isBlog : Bool) (filename : Chars) : Chars :=
  if isBlog then cs "https://nfhezu.top/blog/" ++ cleanFn filename
  else cs "https://nfhezu.top/" ++ cleanFn filename

/-- The datePublished field of the regenerated JSON-LD: the current date,
    present exactly on blog posts (not the blog index, whose schema carries
    no date, and not root pages). -/
def jsonLdDateOf (isBlog : Bool) (filename : Chars) (today : Chars) : Option Chars :=
  if isBlog = true ∧ cleanFn filename ≠ [] then some today else none

/-- build.py process_file: rebuild the head, ensure a breadcrumb, fix
    styles and author/date for blog posts, swap in the canonical nav and
    footer with bare anchors rewritten, replace the recommendation block
    with a freshly drawn one, and process every link. -/
def processFile (pg : InPage) (assets : Assets) (allPosts : List Post)
    (today : Chars) (sample : List Post → List Post)
    (isBlog injectRecs : Bool) : OutDoc :=
  { title := pg.title.getD pg.filename
    desc := pg.desc.getD []
    keywords := pg.keywords
    canonicalUrl := canonicalUrlOf isBlog pg.filename
    hreflangs := [cs "x-default", cs "zh", cs "zh-CN"]
    favicons := assets.favicons
    keptHead := pg.keptHead
    jsonLdDate := jsonLdDateOf isBlog pg.filename today
    breadcrumbPresent := true
    styleFixed := isBlog
    authorDateAdded := isBlog && injectRecs && !pg.hasTimeTag
    navLinks := (assets.navLinks.map fixBareAnchor).map (processLinkHref isBlog)
    footerLinks := (assets.footerLinks.map fixBareAnchor).map (processLinkHref isBlog)
    articleLinks := pg.articleLinks.map (processLinkHref isBlog)
    recs := if isBlog && injectRecs && pg.hasArticle
            then generateRecommendations pg.filename allPosts sample
            else [] }

/-- The output document with the recommendation block removed. -/
def dropRecs (d : OutDoc) : OutDoc := { d with recs := [] }

/-- A valid outcome of random.sample(pool, 4): four distinct elements of the
    pool. -/
abbrev validSample (pool sel : List Post) : Prop :=
  sel.length = 4 ∧ sel.Nodup ∧ ∀ x ∈ sel, x ∈ pool

/-- A post stub used by the determinism counterexample. -/
def mkPost (name : String) : Post :=
  { filename := cs name, url := cs "/blog/" ++ cleanLink (cs name),
    title := cs name, description := [],
    image := cs "/images/netflix-experience.png", mtime := 0 }

def exPosts : List Post :=
  [mkPost "p1.html", mkPost "p2.html", mkPost "p3.html",
   mkPost "p4.html", mkPost "p5.html", mkPost "cur.html"]

def exOthers : List Post :=
  exPosts.filter (fun p =>
    decide (p.filename ≠ cs "cur.html"
      ∧ p.filename ≠ cs "how-to-change-netflix-language-to-chinese.html"))

def exPage9 : InPage :=
  { filename := cs "cur.html", title := some (cs "T"), desc := some (cs "D"),
    keywords := none, keptHead := [], hasNav := true, hasFooter := true,
    hasBreadcrumbNav := true, hasTimeTag := false, hasArticle := true,
    articleLinks := [cs "other.html"], mtime := 0 }

def exAssets : Assets :=
  { navLinks := [cs "/#faq"], footerLinks := [cs "/privacy"],
    favicons := [cs "/favicon.ico"] }

/-- One possible random draw: the first four of the pool. -/
def sampleA : List Post → List Post := fun l => l.take 4

/-- Another possible random draw: the last four of the pool, reversed. -/
def sampleB : List Post → List Post := fun l => l.reverse.take 4

/-- Claim C9, counterexample: the transform is not deterministic in the page
    content, assets and post list alone.  With five eligible other posts,
    two runs differing only in the random.sample outcome, both outcomes
    being valid four-element draws, produce different output documents
    (different recommendation blocks). -/
theorem c9_transform_not_deterministic :
    validSample exOthers (sampleA exOthers)
      ∧ validSample exOthers (sampleB exOthers)
      ∧ processFile exPage9 exAssets exPosts (cs "2026-01-30") sampleA true true
        ≠ processFile exPage9 exAssets exPosts (cs "2026-01-30") sampleB true true := by
  decide

/-- Claim C9, amended: the transform is deterministic in the page content,
    assets, post list, date and the random draw: with the recommendation
    block removed, two runs on equal inputs agree whatever the two draws
    were, and runs with the same draw produce identical documents. -/
theorem c9_transform_deterministic_amended (pg : InPage) (assets : Assets)
    (allPosts : List Post) (today : Chars) (s t : List Post → List Post)
    (isBlog injectRecs : Bool) :
    dropRecs (processFile pg assets allPosts today s isBlog injectRecs)
        = dropRecs (processFile pg assets allPosts today t isBlog injectRecs)
      ∧ (s = t →
          processFile pg assets allPosts today s isBlog injectRecs
            = processFile pg assets allPosts today t isBlog injectRecs) := by
  constructor
  · rfl
  · intro h
    rw [h]

theorem c9_transform_deterministic_amended_witness :
    dropRecs (processFile exPage9 exAssets exPosts (cs "2026-01-30") sampleA true true)
        = dropRecs (processFile exPage9 exAssets exPosts (cs "2026-01-30") sampleB true true)
      ∧ processFile exPage9 exAssets exPosts (cs "2026-01-30") sampleA true true
        = processFile exPage9 exAssets exPosts (cs "2026-01-30") sampleA true true :=
  ⟨(c9_transform_deterministic_amended exPage9 exAssets exPosts (cs "2026-01-30")
      sampleA sampleB true true).1,
   (c9_transform_deterministic_amended exPage9 exAssets exPosts (cs "2026-01-30")
      sampleA sampleA true true).2 rfl⟩

end NFHEZU
